import Mathlib

/-!
Shallow embedding of the file-Q&A RAG demo (Node/Express backend `server.js`
plus the React client `App.jsx`) and proofs about its chunking, endpoint and
client behaviour.  JavaScript strings are modelled as `List Char`; `.length`
is UTF-16 length (`utf16Len`), and fallible or effectful parts (the Gemini
call, `fetch`, React state updates) are modelled by explicit outcome values
and state-passing functions.
-/

namespace RagDemo

/-- Character class of the JavaScript regex `\s` (and of `String.prototype.trim`):
ASCII white space, NBSP, the Unicode space separators, line and paragraph
separators, and the BOM. -/
def isWs (c : Char) : Bool :=
  c = ' ' || c = '\t' || c = '\n' || c = '\x0B' || c = '\x0C' || c = '\r' ||
  c = '\u00A0' || c = '\u1680' || (0x2000 ≤ c.val && c.val ≤ 0x200A) ||
  c = '\u2028' || c = '\u2029' || c = '\u202F' || c = '\u205F' || c = '\u3000' ||
  c = '\uFEFF'

/-- The sentence-ending characters of the lookbehind `(?<=[.?!])`. -/
def isSentEnd (c : Char) : Bool := c = '.' || c = '?' || c = '!'

/-- Lookbehind test on the character before the current scan position. -/
def prevEnd : Option Char → Bool
  | some c => isSentEnd c
  | none => false

/-- JavaScript `String.prototype.length`: code points above `0xFFFF` are
surrogate pairs and count twice. -/
def utf16Len (s : List Char) : Nat :=
  (s.map (fun c => if 0x10000 ≤ c.val then 2 else 1)).sum

/-- JavaScript `String.prototype.trim`: drop leading and trailing `isWs`
characters. -/
def trim (s : List Char) : List Char :=
  ((s.dropWhile isWs).reverse.dropWhile isWs).reverse

/-- One pass of ECMAScript `String.prototype.split` with the separator regex
`(\n\n|\n|(?<=[.?!]))\s*` of `chunkFileContent` (server.js line 25), captured
group included in the output, as the spec algorithm does: scan position by
position; at each position try `\n\n`, then `\n`, then the zero-width
lookbehind, each followed by a greedy `\s*`; a zero-width match at the start
of the current piece is rejected.  `skip` is true while the scan is inside
the `\s*` of an accepted separator, `prev` is the character before the scan
position, `acc` is the current piece reversed. -/
def splitGo (skip : Bool) (prev : Option Char) (acc : List Char) :
    List Char → List (List Char)
  | [] => [acc.reverse]
  | c :: rest =>
    if skip then
      if isWs c then splitGo true (some c) acc rest
      else splitGo false (some c) [c] rest
    else if c = '\n' then
      acc.reverse ::
        (if rest.head? = some '\n' then ['\n', '\n'] else ['\n']) ::
          splitGo true (some '\n') [] rest
    else if prevEnd prev then
      if isWs c then acc.reverse :: [] :: splitGo true (some c) [] rest
      else if acc.isEmpty then splitGo false (some c) [c] rest
      else acc.reverse :: [] :: splitGo false (some c) [c] rest
    else splitGo false (some c) (c :: acc) rest

/-- `text.split(/(\n\n|\n|(?<=[.?!]))\s*/)` of server.js line 25. -/
def splitPieces (text : List Char) : List (List Char) :=
  splitGo false none [] text

/-- `text.split(...).filter((s) => s.trim().length > 0)`: the sentence list of
`chunkFileContent` (server.js line 25). -/
def sentences (text : List Char) : List (List Char) :=
  (splitPieces text).filter (fun s => 0 < utf16Len (trim s))

/-- The accumulation loop of `chunkFileContent` (server.js lines 26-39):
greedily append sentences to `currentChunk`; when the next sentence would
overflow `maxChunkSize` and the current chunk is non-empty, push its trimmed
form and restart from that sentence; finally push the trimmed remainder if
non-empty. -/
def chunkLoop (maxChunkSize : Nat) : List (List Char) → List Char → List (List Char)
  | [], currentChunk =>
    if 0 < utf16Len currentChunk then [trim currentChunk] else []
  | sentence :: rest, currentChunk =>
    if maxChunkSize < utf16Len currentChunk + utf16Len sentence ∧
        0 < utf16Len currentChunk then
      trim currentChunk :: chunkLoop maxChunkSize rest sentence
    else
      chunkLoop maxChunkSize rest (currentChunk ++ sentence)

/-- `chunkFileContent(text, maxChunkSize = 500)` of server.js lines 23-41.
The falsy guard `if (!text) return []` is the `isEmpty` test (absent input is
modelled as the empty string). -/
def chunkFileContent (text : List Char) (maxChunkSize : Nat := 500) :
    List (List Char) :=
  if text.isEmpty then [] else chunkLoop maxChunkSize (sentences text) []


/-- Decidable test that `c` occurs as a contiguous substring of `t`. -/
def isSubstrOf (c : List Char) : List Char → Bool
  | [] => c.isEmpty
  | d :: ts => c.isPrefixOf (d :: ts) || isSubstrOf c ts

/-! ### The `/api/chat` endpoint (server.js lines 44-105) -/

/-- Outcome of the backend `fetch` to the Gemini API: the promise rejects
(`fetchError`), or resolves to a response with its `ok` flag, `status`, error
body text, and the candidate text found at
`result?.candidates?.[0]?.content?.parts?.[0]?.text` (if any). -/
inductive ApiOutcome where
  | fetchError (msg : List Char)
  | response (ok : Bool) (status : Nat) (errorBody : List Char)
      (candidate : Option (List Char))
deriving DecidableEq

/-- What the endpoint forwards to the external API: `contents` carries the
user question, `systemInstruction` the grounding prompt (server.js 72-76). -/
structure ApiPayload where
  userText : List Char
  systemText : List Char
deriving DecidableEq

/-- The JSON body the endpoint sends back: `{answer}` or `{error, details?}`. -/
inductive ChatBody where
  | answer (text : List Char)
  | err (message : List Char) (details : Option (List Char))
deriving DecidableEq

/-- An HTTP response of the endpoint: status code plus JSON body. -/
structure ChatResponse where
  status : Nat
  body : ChatBody
deriving DecidableEq

def keyMissingMsg : List Char := "GEMINI_API_KEY not set in environment.".data

def bodyMissingMsg : List Char :=
  "Missing fileContent or userQuestion in request body.".data

def procErrMsg : List Char := "An error occurred while processing the request.".data

def fallbackAnswer : List Char :=
  "Sorry, I could not generate a response from the file content.".data

/-- The separator `"\n---\n"` of `contextChunks.join` (server.js line 57). -/
def chunkSep : List Char := "\n---\n".data

/-- The template literal of server.js lines 59-67 up to the interpolation. -/
def sysPromptPre : List Char :=
  "You are a helpful and accurate Q&A system. Your sole task is to answer the user's question ONLY using the provided file content delimited by \"FILE CONTENT START\" and \"FILE CONTENT END\".\n        \n        RULES:\n        1. If the answer is not found in the file content, state clearly that the information is not available in the document. Do NOT use external knowledge.\n        2. Keep the answer concise and factual.\n        \n        FILE CONTENT START\n        ".data

/-- The template literal of server.js lines 66-67 after the interpolation. -/
def sysPromptPost : List Char := "\n        FILE CONTENT END".data

def systemPromptOf (contextString : List Char) : List Char :=
  sysPromptPre ++ contextString ++ sysPromptPost

/-- JavaScript falsiness of an optional string (`!API_KEY`, server.js 45). -/
def isFalsyStr : Option (List Char) → Bool
  | none => true
  | some s => s.isEmpty

/-- `result?.candidates?.[0]?.content?.parts?.[0]?.text || fallback`
(server.js 94-96): the fallback also replaces an empty candidate string,
which is falsy. -/
def extractAnswer : Option (List Char) → List Char
  | some t => if t.isEmpty then fallbackAnswer else t
  | none => fallbackAnswer

/-- Message of the `Error` thrown on a non-ok upstream response (server.js 90). -/
def geminiFailMsg (status : Nat) (errorBody : List Char) : List Char :=
  "Gemini API request failed: ".data ++ (Nat.repr status).data ++ " - ".data ++
    errorBody

/-- The payload built from the request body (server.js 56-76): chunk the file
content with the default maximum size, join with `chunkSep`, wrap in the
system prompt, and pair with the user question. -/
def buildPayload (fileContent userQuestion : List Char) : ApiPayload :=
  ⟨userQuestion,
    systemPromptOf (List.intercalate chunkSep (chunkFileContent fileContent))⟩

/-- The `/api/chat` handler (server.js 44-105) as a function of the API key,
the two request-body fields (absent fields modelled as empty strings, which
are equally falsy), and the behaviour `api` of the external call. -/
def handleChat (apiKey : Option (List Char)) (fileContent userQuestion : List Char)
    (api : ApiPayload → ApiOutcome) : ChatResponse :=
  if isFalsyStr apiKey then ⟨500, ChatBody.err keyMissingMsg none⟩
  else if fileContent.isEmpty || userQuestion.isEmpty then
    ⟨400, ChatBody.err bodyMissingMsg none⟩
  else
    match api (buildPayload fileContent userQuestion) with
    | ApiOutcome.fetchError m => ⟨500, ChatBody.err procErrMsg (some m)⟩
    | ApiOutcome.response ok status errorBody candidate =>
      if ok then ⟨200, ChatBody.answer (extractAnswer candidate)⟩
      else ⟨500, ChatBody.err procErrMsg (some (geminiFailMsg status errorBody))⟩

/-! ### The client (App.jsx): chat state machine -/

/-- A chat message `{role, text}` as the client stores it. -/
structure ChatMsg where
  role : List Char
  text : List Char
deriving DecidableEq

/-- The React state used by the claims: `fileContent`, `fileName`,
`chatHistory`, `isLoading`, `userInput`, `error`. -/
structure ClientState where
  fileContent : List Char
  fileName : List Char
  chatHistory : List ChatMsg
  isLoading : Bool
  userInput : List Char
  error : Option (List Char)
deriving DecidableEq

def initialState : ClientState := ⟨[], [], [], false, [], none⟩

/-- Outcome of `FileReader.readAsText`: `onload` with the text, or `onerror`. -/
inductive FileReadResult where
  | ok (content : List Char)
  | err
deriving DecidableEq

/-- Outcome of the awaited backend round trip inside `handleSendMessage`:
the fetch (or JSON parse) threw, or a parsed result `{error?, answer}`. -/
inductive SendResult where
  | threw (msg : List Char)
  | response (errField : Option (List Char)) (answer : List Char)
deriving DecidableEq

/-- Truthiness of `result.error` (App.jsx line 205). -/
def errTruthy : Option (List Char) → Bool
  | none => false
  | some s => !s.isEmpty

def introText (name : List Char) : List Char :=
  "File **".data ++ name ++
    "** uploaded successfully. Ask me a question about its content!".data

def warnText (msg : List Char) : List Char :=
  "⚠️ **Server Error:** I couldn't process that request. Please check the backend server logs. (".data
    ++ msg ++ ")".data

def failDetails (msg : List Char) : List Char :=
  "Failed to get answer from server. Details: ".data ++ msg

def fileReadErrMsg : List Char := "Error reading file.".data

def userRole : List Char := "user".data

def aiRole : List Char := "ai".data

/-- `handleFileChange` (App.jsx 153-174): no file selected is a no-op;
otherwise the name is set and the history cleared, then the reader callback
either stores the content and seeds the history with the intro message, or
records a read error. -/
def handleFileChange (file : Option (List Char × FileReadResult))
    (st : ClientState) : ClientState :=
  match file with
  | none => st
  | some (name, FileReadResult.ok content) =>
    { st with
      fileName := name
      fileContent := content
      chatHistory := [⟨aiRole, introText name⟩] }
  | some (name, FileReadResult.err) =>
    { st with
      fileName := name
      chatHistory := []
      error := some fileReadErrMsg }

/-- `handleSendMessage` (App.jsx 176-226): guard on blank input, loading, or
missing file; append the trimmed user question; then on a thrown error or a
truthy `result.error` append the warning reply and set the error banner, else
append the answer; `isLoading` is reset in `finally`. -/
def handleSendMessage (res : SendResult) (st : ClientState) : ClientState :=
  if (trim st.userInput).isEmpty || st.isLoading || st.fileContent.isEmpty then st
  else
    let q := trim st.userInput
    let st1 : ClientState :=
      { st with
        chatHistory := st.chatHistory ++ [⟨userRole, q⟩]
        userInput := []
        isLoading := true
        error := none }
    match res with
    | SendResult.threw m =>
      { st1 with
        error := some (failDetails m)
        chatHistory := st1.chatHistory ++ [⟨aiRole, warnText m⟩]
        isLoading := false }
    | SendResult.response errF ans =>
      if errTruthy errF then
        { st1 with
          error := some (failDetails (errF.getD []))
          chatHistory := st1.chatHistory ++ [⟨aiRole, warnText (errF.getD [])⟩]
          isLoading := false }
      else
        { st1 with
          chatHistory := st1.chatHistory ++ [⟨aiRole, ans⟩]
          isLoading := false }

/-- The client events that touch the chat state: a file-input change, a send
with its backend outcome, and typing in the input box. -/
inductive ClientEvent where
  | fileChange (file : Option (List Char × FileReadResult))
  | sendMessage (res : SendResult)
  | setInput (s : List Char)
deriving DecidableEq

def clientStep (e : ClientEvent) (st : ClientState) : ClientState :=
  match e with
  | ClientEvent.fileChange f => handleFileChange f st
  | ClientEvent.sendMessage r => handleSendMessage r st
  | ClientEvent.setInput s => { st with userInput := s }

def runClient (evs : List ClientEvent) : ClientState :=
  evs.foldl (fun st e => clientStep e st) initialState

/-! ### `fetchWithBackoff` (App.jsx lines 124-151) -/

/-- Outcome of one `fetch` attempt: the promise rejects, or resolves to a
response with its status; `errorDetail` stands for the resolved
`errorDetail.error || errorDetail.message` used in the thrown message. -/
inductive FetchOutcome where
  | throws (msg : List Char)
  | resp (status : Nat) (errorDetail : List Char)
deriving DecidableEq

/-- `Response.ok`: status in the inclusive range 200-299. -/
def okStatus (status : Nat) : Bool := decide (200 ≤ status ∧ status ≤ 299)

/-- Message of the `Error` thrown on a non-ok response (App.jsx 138-141). -/
def apiRequestFailedMsg (status : Nat) (errorDetail : List Char) : List Char :=
  "API Request Failed: ".data ++ (Nat.repr status).data ++ " - ".data ++
    errorDetail

/-- Result of `fetchWithBackoff`: the returned response, the propagated
error, or the (unreachable) fall through the loop, each with the list of
back-off delays actually awaited. -/
inductive BackoffResult where
  | success (status : Nat) (waits : List Nat)
  | failure (msg : List Char) (waits : List Nat)
  | fellThrough (waits : List Nat)
deriving DecidableEq

/-- The retry loop of `fetchWithBackoff` with `maxRetries = 3`: `rem` counts
the remaining iterations (`3 - i`), `i` the loop index, `delay` the current
back-off, `waits` the delays awaited so far.  A 429 before the last attempt
waits and retries; a non-ok response throws, and a thrown error before the
last attempt waits and retries, on the last attempt it propagates. -/
def backoffGo (attempts : Nat → FetchOutcome) :
    Nat → Nat → Nat → List Nat → BackoffResult
  | 0, _, _, waits => BackoffResult.fellThrough waits
  | rem + 1, i, delay, waits =>
    match attempts i with
    | FetchOutcome.throws m =>
      if i = 2 then BackoffResult.failure m waits
      else backoffGo attempts rem (i + 1) (delay * 2) (waits ++ [delay])
    | FetchOutcome.resp status errorDetail =>
      if status = 429 ∧ i < 2 then
        backoffGo attempts rem (i + 1) (delay * 2) (waits ++ [delay])
      else if okStatus status = false then
        if i = 2 then
          BackoffResult.failure (apiRequestFailedMsg status errorDetail) waits
        else backoffGo attempts rem (i + 1) (delay * 2) (waits ++ [delay])
      else BackoffResult.success status waits

/-- `fetchWithBackoff` (App.jsx 124-151): up to 3 attempts, starting delay
1000 ms. -/
def fetchWithBackoff (attempts : Nat → FetchOutcome) : BackoffResult :=
  backoffGo attempts 3 0 1000 []

def waitsOf : BackoffResult → List Nat
  | BackoffResult.success _ w => w
  | BackoffResult.failure _ w => w
  | BackoffResult.fellThrough w => w

/-- Whether an attempt outcome makes the loop retry (before the last
attempt): the fetch threw, or the response is not ok — which includes 429. -/
def retryTrigger : FetchOutcome → Bool
  | FetchOutcome.throws _ => true
  | FetchOutcome.resp status _ => !okStatus status

/-- What one attempt yields if the loop stops at it. -/
def attemptResult (o : FetchOutcome) (waits : List Nat) : BackoffResult :=
  match o with
  | FetchOutcome.throws m => BackoffResult.failure m waits
  | FetchOutcome.resp status errorDetail =>
    if okStatus status then BackoffResult.success status waits
    else BackoffResult.failure (apiRequestFailedMsg status errorDetail) waits

/-- Specification-side description of the retry loop, following the spec's
words: the first attempt without a retry trigger decides the result; delays
double from 1000 ms; after three failing attempts the last error propagates. -/
def backoffSpec (attempts : Nat → FetchOutcome) : BackoffResult :=
  if retryTrigger (attempts 0) = false then attemptResult (attempts 0) []
  else if retryTrigger (attempts 1) = false then attemptResult (attempts 1) [1000]
  else attemptResult (attempts 2) [1000, 2000]

/-- A concrete external-call behaviour used to instantiate theorems. -/
def apiConst : ApiPayload → ApiOutcome := fun _ => ApiOutcome.fetchError []

/-- A concrete external call resolving ok with a candidate answer. -/
def apiRespOk : ApiPayload → ApiOutcome :=
  fun _ => ApiOutcome.response true 200 [] (some ("ans".data))

/-- A concrete external call resolving ok without any candidate text. -/
def apiRespNoCand : ApiPayload → ApiOutcome :=
  fun _ => ApiOutcome.response true 200 [] none

/-- A fetch behaviour answering 500 on every attempt. -/
def attemptsAll500 : Nat → FetchOutcome :=
  fun _ => FetchOutcome.resp 500 ("oops".data)


/-! ### Basic facts about `utf16Len`, `trim` and `flatten` -/

theorem utf16Len_append (a b : List Char) :
    utf16Len (a ++ b) = utf16Len a + utf16Len b := by
  simp [utf16Len]

theorem utf16Len_cons (c : Char) (t : List Char) :
    utf16Len (c :: t) = (if 0x10000 ≤ c.val then 2 else 1) + utf16Len t := by
  simp [utf16Len]

theorem utf16Len_pos_iff {s : List Char} : 0 < utf16Len s ↔ s ≠ [] := by
  cases s with
  | nil => simp [utf16Len]
  | cons c t =>
    rw [utf16Len_cons]
    constructor
    · intro _; simp
    · intro _; split <;> omega

theorem utf16Len_le_of_sublist {a b : List Char} (h : List.Sublist a b) :
    utf16Len a ≤ utf16Len b :=
  (h.map _).sum_le_sum (fun x _ => Nat.zero_le x)

theorem trim_sublist (s : List Char) : List.Sublist (trim s) s := by
  have h1 : List.Sublist (s.dropWhile isWs) s := List.dropWhile_sublist _
  have h2 := (List.dropWhile_sublist (l := (s.dropWhile isWs).reverse) isWs).reverse
  rw [List.reverse_reverse] at h2
  exact h2.trans h1

theorem trim_eq_nil_iff {s : List Char} :
    trim s = [] ↔ ∀ c ∈ s, isWs c = true := by
  unfold trim
  rw [List.reverse_eq_nil_iff, List.dropWhile_eq_nil_iff]
  constructor
  · intro h c hc
    have h' : c ∈ s.takeWhile isWs ++ s.dropWhile isWs := by
      rw [List.takeWhile_append_dropWhile]; exact hc
    rcases List.mem_append.mp h' with hc1 | hc2
    · exact List.mem_takeWhile_imp hc1
    · exact h c (List.mem_reverse.mpr hc2)
  · intro h c hc
    exact h c ((List.dropWhile_sublist isWs).subset (List.mem_reverse.mp hc))

theorem dropWhile_idem {α : Type} (p : α → Bool) (l : List α) :
    (l.dropWhile p).dropWhile p = l.dropWhile p := by
  induction l with
  | nil => rfl
  | cons c t ih => by_cases hp : p c <;> simp [List.dropWhile_cons, hp, ih]

theorem dropWhile_eq_cons_head {α : Type} {p : α → Bool} {c : α} {l : List α}
    (h : (c :: l).dropWhile p = c :: l) : p c = false := by
  by_cases hp : p c
  · rw [List.dropWhile_cons, if_pos hp] at h
    have hle := (List.dropWhile_sublist (l := l) p).length_le
    rw [h] at hle
    simp at hle
  · simpa using hp

theorem dropWhile_trim (s : List Char) : (trim s).dropWhile isWs = trim s := by
  have hu : (s.dropWhile isWs).dropWhile isWs = s.dropWhile isWs :=
    dropWhile_idem isWs s
  have hsplit := List.takeWhile_append_dropWhile (p := isWs)
    (l := (s.dropWhile isWs).reverse)
  have hu2 : s.dropWhile isWs =
      ((s.dropWhile isWs).reverse.dropWhile isWs).reverse ++
        ((s.dropWhile isWs).reverse.takeWhile isWs).reverse := by
    have h := congrArg List.reverse hsplit
    rw [List.reverse_append] at h
    simpa using h.symm
  show ((s.dropWhile isWs).reverse.dropWhile isWs).reverse.dropWhile isWs =
    ((s.dropWhile isWs).reverse.dropWhile isWs).reverse
  cases hv : ((s.dropWhile isWs).reverse.dropWhile isWs).reverse with
  | nil => simp
  | cons c t =>
    have hcu : s.dropWhile isWs = c :: (t ++
        ((s.dropWhile isWs).reverse.takeWhile isWs).reverse) :=
      hu2.trans (by rw [hv]; simp)
    have hu' : List.dropWhile isWs
        (c :: (t ++ ((s.dropWhile isWs).reverse.takeWhile isWs).reverse)) =
          c :: (t ++ ((s.dropWhile isWs).reverse.takeWhile isWs).reverse) := by
      rw [← hcu]; exact hu
    have hc : isWs c = false := dropWhile_eq_cons_head hu' 
    rw [List.dropWhile_cons, hc]
    simp

theorem trim_trim (s : List Char) : trim (trim s) = trim s := by
  show (((trim s).dropWhile isWs).reverse.dropWhile isWs).reverse = trim s
  rw [dropWhile_trim]
  have h : (trim s).reverse = (s.dropWhile isWs).reverse.dropWhile isWs := by
    unfold trim; rw [List.reverse_reverse]
  rw [h, dropWhile_idem]
  rfl


theorem flatten_sublist_flatten {α : Type} {l₁ l₂ : List (List α)}
    (h : List.Sublist l₁ l₂) : List.Sublist l₁.flatten l₂.flatten := by
  induction h with
  | slnil => exact List.nil_sublist _
  | cons a h ih =>
    refine ih.trans ?_
    rw [List.flatten_cons]
    exact List.sublist_append_right a _
  | cons₂ a h ih => simpa [List.flatten_cons] using (List.Sublist.refl a).append ih

theorem sublist_append_cons {x a : List Char} {c : Char} {rest : List Char}
    (h : List.Sublist x (a ++ rest)) : List.Sublist x (a ++ c :: rest) :=
  h.trans ((List.Sublist.refl a).append (List.sublist_cons_self c rest))

/-! ### One-step unfolding equations for `splitGo` -/

theorem splitGo_nil (skip : Bool) (prev : Option Char) (acc : List Char) :
    splitGo skip prev acc [] = [acc.reverse] := rfl

theorem splitGo_skip_ws {c : Char} (h : isWs c = true) (prev : Option Char)
    (acc rest : List Char) :
    splitGo true prev acc (c :: rest) = splitGo true (some c) acc rest := by
  simp [splitGo, h]

theorem splitGo_skip_nws {c : Char} (h : isWs c = false) (prev : Option Char)
    (acc rest : List Char) :
    splitGo true prev acc (c :: rest) = splitGo false (some c) [c] rest := by
  simp [splitGo, h]

theorem splitGo_newline (prev : Option Char) (acc rest : List Char) :
    splitGo false prev acc ('\n' :: rest) =
      acc.reverse :: (if rest.head? = some '\n' then ['\n', '\n'] else ['\n']) ::
        splitGo true (some '\n') [] rest := by
  simp [splitGo]

theorem splitGo_end_ws {c : Char} {prev : Option Char} (hnl : c ≠ '\n')
    (hpe : prevEnd prev = true) (hws : isWs c = true) (acc rest : List Char) :
    splitGo false prev acc (c :: rest) =
      acc.reverse :: [] :: splitGo true (some c) [] rest := by
  simp [splitGo, hnl, hpe, hws]

theorem splitGo_end_empty {c : Char} {prev : Option Char} (hnl : c ≠ '\n')
    (hpe : prevEnd prev = true) (hws : isWs c = false) {acc : List Char}
    (hae : acc.isEmpty = true) (rest : List Char) :
    splitGo false prev acc (c :: rest) = splitGo false (some c) [c] rest := by
  simp [splitGo, hnl, hpe, hws, hae]

theorem splitGo_end_cut {c : Char} {prev : Option Char} (hnl : c ≠ '\n')
    (hpe : prevEnd prev = true) (hws : isWs c = false) {acc : List Char}
    (hae : acc.isEmpty = false) (rest : List Char) :
    splitGo false prev acc (c :: rest) =
      acc.reverse :: [] :: splitGo false (some c) [c] rest := by
  simp [splitGo, hnl, hpe, hws, hae]

theorem splitGo_plain {c : Char} {prev : Option Char} (hnl : c ≠ '\n')
    (hpe : prevEnd prev = false) (acc rest : List Char) :
    splitGo false prev acc (c :: rest) = splitGo false (some c) (c :: acc) rest := by
  simp [splitGo, hnl, hpe]

/-- Every character of a piece of the split appears, in order, in the scanned
text: the pieces (captures included) flatten to a sublist of `acc.reverse ++ cs`. -/
theorem splitGo_flatten_sublist :
    ∀ (n : Nat) (cs : List Char), cs.length ≤ n →
      ∀ (skip : Bool) (prev : Option Char) (acc : List Char),
        List.Sublist (splitGo skip prev acc cs).flatten (acc.reverse ++ cs) := by
  intro n
  induction n with
  | zero =>
    intro cs hcs skip prev acc
    have h0 : cs = [] := List.length_eq_zero.mp (Nat.le_zero.mp hcs)
    subst h0
    simp [splitGo_nil]
  | succ n ih =>
    intro cs hcs skip prev acc
    cases cs with
    | nil => simp [splitGo_nil]
    | cons c rest =>
      have hr : rest.length ≤ n := by simp at hcs; omega
      by_cases hskip : skip = true
      · subst hskip
        by_cases hws : isWs c = true
        · rw [splitGo_skip_ws hws]
          exact sublist_append_cons (ih rest hr true (some c) acc)
        · rw [splitGo_skip_nws (by simpa using hws)]
          have h := ih rest hr false (some c) [c]
          simp only [List.reverse_cons, List.reverse_nil, List.nil_append,
            List.singleton_append] at h
          exact h.trans (List.sublist_append_right acc.reverse _)
      · have hsk : skip = false := by simpa using hskip
        subst hsk
        by_cases hnl : c = '\n'
        · subst hnl
          rw [splitGo_newline]
          cases rest with
          | nil => simp [splitGo_nil]
          | cons r rt =>
            by_cases hr2 : r = '\n'
            · subst hr2
              have hrt : rt.length ≤ n := by simp at hr; omega
              rw [splitGo_skip_ws (by decide : isWs '\n' = true)]
              have h := ih rt hrt true (some '\n') []
              simp only [List.reverse_nil, List.nil_append] at h
              simp only [List.head?_cons, if_pos rfl, List.flatten_cons]
              refine (List.Sublist.refl acc.reverse).append ?_
              simpa using List.Sublist.cons₂ '\n' (List.Sublist.cons₂ '\n' h)
            · have h := ih (r :: rt) hr true (some '\n') []
              simp only [List.reverse_nil, List.nil_append] at h
              rw [List.head?_cons, if_neg (by simpa using hr2)]
              simp only [List.flatten_cons]
              refine (List.Sublist.refl acc.reverse).append ?_
              simpa using List.Sublist.cons₂ '\n' h
        · by_cases hpe : prevEnd prev = true
          · by_cases hws : isWs c = true
            · rw [splitGo_end_ws hnl hpe hws]
              have h := ih rest hr true (some c) []
              simp only [List.reverse_nil, List.nil_append] at h
              simp only [List.flatten_cons, List.nil_append]
              exact (List.Sublist.refl acc.reverse).append
                (h.trans (List.sublist_cons_self c rest))
            · have h := ih rest hr false (some c) [c]
              simp only [List.reverse_cons, List.reverse_nil, List.nil_append,
                List.singleton_append] at h
              by_cases hae : acc.isEmpty = true
              · rw [splitGo_end_empty hnl hpe (by simpa using hws) hae]
                exact h.trans (List.sublist_append_right acc.reverse _)
              · rw [splitGo_end_cut hnl hpe (by simpa using hws)
                  (by simpa using hae)]
                simp only [List.flatten_cons, List.nil_append]
                exact (List.Sublist.refl acc.reverse).append h
          · rw [splitGo_plain hnl (by simpa using hpe)]
            have h := ih rest hr false (some c) (c :: acc)
            simpa [List.reverse_cons, List.append_assoc] using h


theorem splitPieces_flatten_sublist (t : List Char) :
    List.Sublist (splitPieces t).flatten t := by
  have h := splitGo_flatten_sublist t.length t (Nat.le_refl _) false none []
  simpa using h

theorem sentences_flatten_sublist (t : List Char) :
    List.Sublist (sentences t).flatten t :=
  (flatten_sublist_flatten (List.filter_sublist _)).trans (splitPieces_flatten_sublist t)

theorem trim_ne_nil_of_mem_sentences {t s : List Char} (h : s ∈ sentences t) :
    trim s ≠ [] := by
  have h2 := (List.mem_filter.mp h).2
  have h3 : 0 < utf16Len (trim s) := by simpa using h2
  exact utf16Len_pos_iff.mp h3

theorem ne_nil_of_mem_sentences {t s : List Char} (h : s ∈ sentences t) :
    s ≠ [] := by
  intro he
  subst he
  exact trim_ne_nil_of_mem_sentences h rfl

/-! ### The chunk loop groups consecutive sentences -/

/-- `chunkLoop` computes, for some grouping `gs` of the pending sentences `pg`
and the remaining sentences `ss` into consecutive non-empty groups, the trimmed
concatenation of each group. -/
theorem chunkLoop_partition (mcs : Nat) :
    ∀ (ss pg : List (List Char)), (∀ s ∈ pg, s ≠ []) → (∀ s ∈ ss, s ≠ []) →
      ∃ gs : List (List (List Char)),
        gs.flatten = pg ++ ss ∧ (∀ g ∈ gs, g ≠ []) ∧
        chunkLoop mcs ss pg.flatten = gs.map (fun g => trim g.flatten) := by
  intro ss
  induction ss with
  | nil =>
    intro pg hpg _
    by_cases hp : pg = []
    · subst hp
      exact ⟨[], by simp, by simp, by simp [chunkLoop, utf16Len]⟩
    · have hne : pg.flatten ≠ [] := by
        intro h
        rcases List.exists_mem_of_ne_nil pg hp with ⟨x, hx⟩
        exact hpg x hx (List.flatten_eq_nil_iff.mp h x hx)
      refine ⟨[pg], by simp, by simp [hp], ?_⟩
      simp [chunkLoop, if_pos (utf16Len_pos_iff.mpr hne)]
  | cons s rest ih =>
    intro pg hpg hss
    have hs : s ≠ [] := hss s (by simp)
    have hrest : ∀ x ∈ rest, x ≠ [] := fun x hx => hss x (by simp [hx])
    by_cases hcond : mcs < utf16Len pg.flatten + utf16Len s ∧ 0 < utf16Len pg.flatten
    · have hpgne : pg ≠ [] := by
        intro h
        subst h
        simp [utf16Len] at hcond
      obtain ⟨gs', h1, h2, h3⟩ := ih [s] (by simpa using hs) hrest
      refine ⟨pg :: gs', ?_, ?_, ?_⟩
      · simp [h1]
      · intro g hg
        rcases List.mem_cons.mp hg with h | h
        · subst h; exact hpgne
        · exact h2 g h
      · simp only [chunkLoop, if_pos hcond, List.map_cons]
        simp only [List.flatten_cons, List.flatten_nil, List.append_nil] at h3
        rw [h3]
    · obtain ⟨gs', h1, h2, h3⟩ := ih (pg ++ [s])
        (by
          intro x hx
          rcases List.mem_append.mp hx with h | h
          · exact hpg x h
          · simpa using (by simpa using h : x = s) ▸ hs) hrest
      refine ⟨gs', ?_, h2, ?_⟩
      · rw [h1]; simp
      · simp only [chunkLoop, if_neg hcond]
        simpa [List.flatten_append] using h3

/-- Every chunk the loop emits is bounded by `mcs` unless it is the trim of a
single sentence taken from `S`. -/
theorem chunkLoop_bound (mcs : Nat) (S : List (List Char)) :
    ∀ (ss : List (List Char)) (cur : List Char), (∀ s ∈ ss, s ∈ S) →
      (cur = [] ∨ utf16Len cur ≤ mcs ∨ ∃ s ∈ S, cur = s) →
      ∀ c ∈ chunkLoop mcs ss cur,
        utf16Len c ≤ mcs ∨ ∃ s ∈ S, c = trim s := by
  intro ss
  induction ss with
  | nil =>
    intro cur _ hcur c hc
    simp only [chunkLoop] at hc
    split at hc
    case isTrue hpos =>
      rcases List.mem_singleton.mp hc with rfl
      rcases hcur with h | h | ⟨s, hsS, hcs⟩
      · subst h; simp [utf16Len] at hpos
      · exact Or.inl ((utf16Len_le_of_sublist (trim_sublist cur)).trans h)
      · exact Or.inr ⟨s, hsS, by rw [hcs]⟩
    case isFalse => simp at hc
  | cons s rest ih =>
    intro cur hS hcur c hc
    have hSrest : ∀ x ∈ rest, x ∈ S := fun x hx => hS x (by simp [hx])
    simp only [chunkLoop] at hc
    split at hc
    case isTrue hcond =>
      rcases List.mem_cons.mp hc with rfl | hmem
      · rcases hcur with h | h | ⟨x, hxS, hcx⟩
        · subst h; simp [utf16Len] at hcond
        · exact Or.inl ((utf16Len_le_of_sublist (trim_sublist cur)).trans h)
        · exact Or.inr ⟨x, hxS, by rw [hcx]⟩
      · exact ih s hSrest (Or.inr (Or.inr ⟨s, hS s (by simp), rfl⟩)) c hmem
    case isFalse hcond =>
      refine ih (cur ++ s) hSrest ?_ c hc
      rcases Decidable.not_and_iff_or_not.mp hcond with h | h
      · exact Or.inr (Or.inl (by rw [utf16Len_append]; omega))
      · have : cur = [] := by
          by_contra hne
          exact h (utf16Len_pos_iff.mpr hne)
        subst this
        exact Or.inr (Or.inr ⟨s, hS s (by simp), by simp⟩)

/-- Every chunk the loop emits is non-empty and already trimmed. -/
theorem chunkLoop_clean (mcs : Nat) :
    ∀ (ss : List (List Char)) (cur : List Char),
      (∀ s ∈ ss, trim s ≠ []) → (cur = [] ∨ trim cur ≠ []) →
      ∀ c ∈ chunkLoop mcs ss cur, c ≠ [] ∧ trim c = c := by
  intro ss
  induction ss with
  | nil =>
    intro cur _ hcur c hc
    simp only [chunkLoop] at hc
    split at hc
    case isTrue hpos =>
      rcases List.mem_singleton.mp hc with rfl
      rcases hcur with h | h
      · subst h; simp [utf16Len] at hpos
      · exact ⟨h, trim_trim cur⟩
    case isFalse => simp at hc
  | cons s rest ih =>
    intro cur hss hcur c hc
    have hrest : ∀ x ∈ rest, trim x ≠ [] := fun x hx => hss x (by simp [hx])
    have hs : trim s ≠ [] := hss s (by simp)
    simp only [chunkLoop] at hc
    split at hc
    case isTrue hcond =>
      rcases List.mem_cons.mp hc with rfl | hmem
      · rcases hcur with h | h
        · subst h; simp [utf16Len] at hcond
        · exact ⟨h, trim_trim cur⟩
      · exact ih s hrest (Or.inr hs) c hmem
    case isFalse =>
      refine ih (cur ++ s) hrest (Or.inr ?_) c hc
      intro h
      apply hs
      rw [trim_eq_nil_iff] at h ⊢
      intro x hx
      exact h x (List.mem_append.mpr (Or.inr hx))


/-! ### Claims C1, C2, C3, C10: the chunking function -/

set_option maxRecDepth 40000 in
/-- Claim C1, as stated, is false on the code: for the 501-character
single-sentence text `aa…a` the unique chunk returned with the default
maximum chunk size 500 has length 501. -/
theorem chunk_size_counterexample :
    ¬ (∀ c ∈ chunkFileContent (List.replicate 501 'a') 500, utf16Len c ≤ 500) := by
  decide

/-- Claim C1 (amended): with the default maximum chunk size 500, every chunk
returned by `chunkFileContent` has length at most 500 unless it is the
trimmed form of a single sentence fragment, which the soft bound lets
through whole. -/
theorem chunk_size_soft_bound (t c : List Char)
    (hc : c ∈ chunkFileContent t 500) :
    utf16Len c ≤ 500 ∨ ∃ s ∈ sentences t, c = trim s := by
  unfold chunkFileContent at hc
  by_cases ht : t.isEmpty = true
  · rw [if_pos ht] at hc
    simp at hc
  · rw [if_neg ht] at hc
    exact chunkLoop_bound 500 (sentences t) (sentences t) [] (fun s h => h)
      (Or.inl rfl) c hc

theorem chunk_size_soft_bound_witness :
    utf16Len ("hi.".data) ≤ 500 ∨ ∃ s ∈ sentences ("hi.".data), "hi.".data = trim s :=
  chunk_size_soft_bound ("hi.".data) ("hi.".data) (by decide)

/-- Claim C2, as stated, is false on the code: for the text `"  a."` the only
sentence fragment keeps its leading spaces while the only chunk is trimmed,
so no grouping of the fragments concatenates to the chunks exactly. -/
theorem chunk_concat_counterexample :
    ¬ ∃ gs : List (List (List Char)),
        gs.flatten = sentences ("  a.".data) ∧
        chunkFileContent ("  a.".data) 500 = gs.map List.flatten := by
  rintro ⟨gs, h1, h2⟩
  have h3 : (chunkFileContent ("  a.".data) 500).flatten =
      (sentences ("  a.".data)).flatten := by
    rw [h2, ← List.flatten_flatten, h1]
  exact absurd h3 (by decide)

/-- Claim C2 (amended): the chunks of `chunkFileContent` are the trimmed
concatenations of a partition of the non-whitespace sentence fragments into
consecutive non-empty groups — every fragment is used exactly once, in its
original relative order, and only whitespace trimming at chunk boundaries
separates the concatenation of the chunks from that of the fragments. -/
theorem chunk_concat_partition (t : List Char) :
    ∃ gs : List (List (List Char)),
      gs.flatten = sentences t ∧ (∀ g ∈ gs, g ≠ []) ∧
      chunkFileContent t 500 = gs.map (fun g => trim g.flatten) := by
  by_cases ht : t.isEmpty = true
  · have ht' : t = [] := List.isEmpty_iff.mp ht
    subst ht'
    exact ⟨[], by decide, by simp, by simp [chunkFileContent]⟩
  · obtain ⟨gs, h1, h2, h3⟩ := chunkLoop_partition 500 (sentences t) []
      (by simp) (fun s h => ne_nil_of_mem_sentences h)
    refine ⟨gs, by simpa using h1, h2, ?_⟩
    unfold chunkFileContent
    rw [if_neg ht]
    simpa using h3

/-- Claim C3, as stated, is false on the code: for the text `"a\nb"` the only
chunk is `"ab"`, which is not a contiguous substring of the document. -/
theorem chunk_substring_counterexample :
    ¬ (∀ c ∈ chunkFileContent ("a\nb".data) 500,
        isSubstrOf c ("a\nb".data) = true) := by
  decide

/-- Claim C3 (amended): every chunk is a subsequence of the original document
text — its characters occur in the document in their original order — but not
necessarily contiguously, because the separators dropped between sentence
fragments may be missing from the chunk. -/
theorem chunk_subsequence (t c : List Char)
    (hc : c ∈ chunkFileContent t 500) : List.Sublist c t := by
  unfold chunkFileContent at hc
  by_cases ht : t.isEmpty = true
  · rw [if_pos ht] at hc
    simp at hc
  · rw [if_neg ht] at hc
    obtain ⟨gs, h1, h2, h3⟩ := chunkLoop_partition 500 (sentences t) []
      (by simp) (fun s h => ne_nil_of_mem_sentences h)
    have h3' : chunkLoop 500 (sentences t) [] = gs.map (fun g => trim g.flatten) := by
      simpa using h3
    rw [h3'] at hc
    rcases List.mem_map.mp hc with ⟨g, hg, rfl⟩
    have h1' : gs.flatten = sentences t := by simpa using h1
    have hgsub : List.Sublist g (sentences t) :=
      h1' ▸ List.sublist_flatten_of_mem hg
    exact ((trim_sublist _).trans (flatten_sublist_flatten hgsub)).trans
      (sentences_flatten_sublist t)

theorem chunk_subsequence_witness : List.Sublist ("hi.".data) ("hi.".data) :=
  chunk_subsequence ("hi.".data) ("hi.".data) (by decide)

/-- Claim C10: `chunkFileContent` returns the empty list on empty (or absent)
input, and every chunk it ever returns is non-empty and carries no leading or
trailing whitespace (it equals its own trim). -/
theorem chunk_empty_and_clean :
    chunkFileContent [] 500 = [] ∧
    ∀ (mcs : Nat) (t c : List Char), c ∈ chunkFileContent t mcs →
      c ≠ [] ∧ trim c = c := by
  refine ⟨rfl, ?_⟩
  intro mcs t c hc
  unfold chunkFileContent at hc
  by_cases ht : t.isEmpty = true
  · rw [if_pos ht] at hc
    simp at hc
  · rw [if_neg ht] at hc
    exact chunkLoop_clean mcs (sentences t) []
      (fun s h => trim_ne_nil_of_mem_sentences h) (Or.inl rfl) c hc


/-! ### Claims C4, C8, C9: the `/api/chat` endpoint -/

/-- Claim C4: for a valid request — truthy API key, non-empty `fileContent`
and `userQuestion` — the endpoint forwards to the external API exactly the
user question together with the grounding system prompt, which wraps the
chunks of the file content joined by `"\n---\n"`; and when the upstream
response is ok it answers 200 with a JSON body whose `answer` field is the
text extracted from the API response. -/
theorem chat_valid_request (apiKey : Option (List Char))
    (fileContent userQuestion : List Char) (api : ApiPayload → ApiOutcome)
    (status : Nat) (errorBody : List Char) (candidate : Option (List Char))
    (hkey : isFalsyStr apiKey = false)
    (hfc : fileContent ≠ []) (huq : userQuestion ≠ [])
    (hapi : api (buildPayload fileContent userQuestion) =
      ApiOutcome.response true status errorBody candidate) :
    handleChat apiKey fileContent userQuestion api =
      ⟨200, ChatBody.answer (extractAnswer candidate)⟩ ∧
    buildPayload fileContent userQuestion =
      ⟨userQuestion,
        sysPromptPre ++
          List.intercalate chunkSep (chunkFileContent fileContent 500) ++
            sysPromptPost⟩ := by
  have hfc' : fileContent.isEmpty = false := by
    cases fileContent with
    | nil => exact absurd rfl hfc
    | cons a l => rfl
  have huq' : userQuestion.isEmpty = false := by
    cases userQuestion with
    | nil => exact absurd rfl huq
    | cons a l => rfl
  constructor
  · simp [handleChat, hkey, hfc', huq', hapi]
  · rfl

theorem chat_valid_request_witness :
    handleChat (some ("k".data)) ("hi.".data) ("q".data) apiRespOk =
      ⟨200, ChatBody.answer (extractAnswer (some ("ans".data)))⟩ ∧
    buildPayload ("hi.".data) ("q".data) =
      ⟨"q".data,
        sysPromptPre ++
          List.intercalate chunkSep (chunkFileContent ("hi.".data) 500) ++
            sysPromptPost⟩ :=
  chat_valid_request (some ("k".data)) ("hi.".data) ("q".data) apiRespOk
    200 [] (some ("ans".data)) (by decide) (by decide) (by decide) rfl

/-- Claim C8: a falsy API key makes the endpoint answer 500 with an error
before any external call, and with the key set but `fileContent` or
`userQuestion` missing (empty) it answers 400 with an error; in both cases
the response does not depend on the external API behaviour, so no external
call is observable. -/
theorem chat_rejects_invalid (apiKey : Option (List Char))
    (fileContent userQuestion : List Char) (api api' : ApiPayload → ApiOutcome) :
    (isFalsyStr apiKey = true →
      handleChat apiKey fileContent userQuestion api =
        ⟨500, ChatBody.err keyMissingMsg none⟩ ∧
      handleChat apiKey fileContent userQuestion api =
        handleChat apiKey fileContent userQuestion api') ∧
    (isFalsyStr apiKey = false → fileContent = [] ∨ userQuestion = [] →
      handleChat apiKey fileContent userQuestion api =
        ⟨400, ChatBody.err bodyMissingMsg none⟩ ∧
      handleChat apiKey fileContent userQuestion api =
        handleChat apiKey fileContent userQuestion api') := by
  constructor
  · intro hk
    constructor <;> simp [handleChat, hk]
  · intro hk hmiss
    have hempty : (fileContent.isEmpty || userQuestion.isEmpty) = true := by
      rcases hmiss with h | h <;> simp [h]
    constructor <;> simp [handleChat, hk, hempty]

theorem chat_rejects_invalid_witness :
    handleChat none ("a".data) ("b".data) apiConst =
      ⟨500, ChatBody.err keyMissingMsg none⟩ ∧
    handleChat (some ("k".data)) [] ("b".data) apiConst =
      ⟨400, ChatBody.err bodyMissingMsg none⟩ :=
  ⟨((chat_rejects_invalid none ("a".data) ("b".data) apiConst apiConst).1 rfl).1,
    ((chat_rejects_invalid (some ("k".data)) [] ("b".data) apiConst apiConst).2
      rfl (Or.inl rfl)).1⟩

/-- Claim C9: when the upstream response is ok but carries no candidate text
at `candidates[0].content.parts[0].text`, the endpoint still answers 200 and
the answer is the fixed fallback sentence. -/
theorem chat_fallback_answer (apiKey : Option (List Char))
    (fileContent userQuestion : List Char) (api : ApiPayload → ApiOutcome)
    (status : Nat) (errorBody : List Char)
    (hkey : isFalsyStr apiKey = false)
    (hfc : fileContent ≠ []) (huq : userQuestion ≠ [])
    (hapi : api (buildPayload fileContent userQuestion) =
      ApiOutcome.response true status errorBody none) :
    handleChat apiKey fileContent userQuestion api =
      ⟨200, ChatBody.answer fallbackAnswer⟩ := by
  have hfc' : fileContent.isEmpty = false := by
    cases fileContent with
    | nil => exact absurd rfl hfc
    | cons a l => rfl
  have huq' : userQuestion.isEmpty = false := by
    cases userQuestion with
    | nil => exact absurd rfl huq
    | cons a l => rfl
  simp [handleChat, hkey, hfc', huq', hapi, extractAnswer]

theorem chat_fallback_answer_witness :
    handleChat (some ("k".data)) ("hi.".data) ("q".data) apiRespNoCand =
      ⟨200, ChatBody.answer fallbackAnswer⟩ :=
  chat_fallback_answer (some ("k".data)) ("hi.".data) ("q".data) apiRespNoCand
    200 [] (by decide) (by decide) (by decide) rfl


/-! ### Claims C5, C6: the client chat history -/

/-- A send-message update either leaves the history unchanged (guard) or
appends exactly the trimmed user question followed by one reply from the
assistant side. -/
theorem sendMessage_history (r : SendResult) (st : ClientState) :
    (handleSendMessage r st).chatHistory = st.chatHistory ∨
    ∃ q a, (handleSendMessage r st).chatHistory =
      st.chatHistory ++ [⟨userRole, q⟩, ⟨aiRole, a⟩] := by
  unfold handleSendMessage
  by_cases hg : ((trim st.userInput).isEmpty || st.isLoading ||
      st.fileContent.isEmpty) = true
  · rw [if_pos hg]
    exact Or.inl rfl
  · rw [if_neg hg]
    cases r with
    | threw m =>
      exact Or.inr ⟨trim st.userInput, warnText m, by simp⟩
    | response errF ans =>
      by_cases he : errTruthy errF = true
      · exact Or.inr ⟨trim st.userInput, warnText (errF.getD []), by simp [he]⟩
      · exact Or.inr ⟨trim st.userInput, ans, by simp [he]⟩

/-- A file-change event leaves the history unchanged (no file selected),
clears it (read error), or resets it to a single intro message. -/
theorem fileChange_history (f : Option (List Char × FileReadResult))
    (st : ClientState) :
    (handleFileChange f st).chatHistory = st.chatHistory ∨
    (handleFileChange f st).chatHistory = [] ∨
    ∃ name, (handleFileChange f st).chatHistory = [⟨aiRole, introText name⟩] := by
  cases f with
  | none => exact Or.inl rfl
  | some nf =>
    obtain ⟨name, res⟩ := nf
    cases res with
    | ok content => exact Or.inr (Or.inr ⟨name, rfl⟩)
    | err => exact Or.inr (Or.inl rfl)

/-- Claim C5, as stated, is false on the code: the client tags non-user
messages with role `"ai"`, not `"assistant"` — after a successful upload the
history holds a message whose role is neither `"user"` nor `"assistant"`. -/
theorem chat_roles_counterexample :
    ¬ (∀ m ∈ (runClient [ClientEvent.fileChange (some ("f.txt".data,
          FileReadResult.ok ("hello".data)))]).chatHistory,
        m.role = "user".data ∨ m.role = "assistant".data) := by
  decide

/-- Claim C5 (amended): every message ever appended to the client chat
history carries a text field and a role equal to `"user"` or `"ai"` (the
code's label for the assistant side). -/
theorem chat_history_roles (evs : List ClientEvent) (m : ChatMsg)
    (hm : m ∈ (runClient evs).chatHistory) :
    m.role = "user".data ∨ m.role = "ai".data := by
  suffices h : ∀ (l : List ClientEvent) (st : ClientState),
      (∀ x ∈ st.chatHistory, x.role = userRole ∨ x.role = aiRole) →
      ∀ x ∈ (l.foldl (fun s e => clientStep e s) st).chatHistory,
        x.role = userRole ∨ x.role = aiRole by
    exact h evs initialState (by simp [initialState]) m hm
  intro l
  induction l with
  | nil =>
    intro st hst
    simpa using hst
  | cons e rest ih =>
    intro st hst
    rw [List.foldl_cons]
    refine ih (clientStep e st) ?_
    intro x hx
    cases e with
    | fileChange f =>
      have hx' : x ∈ (handleFileChange f st).chatHistory := hx
      rcases fileChange_history f st with h | h | ⟨name, h⟩ <;> rw [h] at hx'
      · exact hst x hx'
      · simp at hx'
      · rw [List.mem_singleton] at hx'
        subst hx'
        exact Or.inr rfl
    | sendMessage r =>
      have hx' : x ∈ (handleSendMessage r st).chatHistory := hx
      rcases sendMessage_history r st with h | ⟨q, a, h⟩ <;> rw [h] at hx'
      · exact hst x hx'
      · rcases List.mem_append.mp hx' with hold | hnew
        · exact hst x hold
        · rcases List.mem_cons.mp hnew with h1 | h1
          · subst h1
            exact Or.inl rfl
          · rw [List.mem_singleton] at h1
            subst h1
            exact Or.inr rfl
    | setInput s =>
      exact hst x hx

theorem chat_history_roles_witness :
    (ChatMsg.mk ("ai".data) (introText ("f.txt".data))).role = "user".data ∨
    (ChatMsg.mk ("ai".data) (introText ("f.txt".data))).role = "ai".data :=
  chat_history_roles
    [ClientEvent.fileChange (some ("f.txt".data, FileReadResult.ok ("hello".data)))]
    (ChatMsg.mk ("ai".data) (introText ("f.txt".data))) (by decide)

/-- Claim C6, as stated, is false on the code: a file upload removes the
existing messages — the intro message present after uploading `a.txt` is gone
once `b.txt` is uploaded. -/
theorem chat_history_reset_counterexample :
    ChatMsg.mk ("ai".data) (introText ("a.txt".data)) ∈
      (runClient [ClientEvent.fileChange (some ("a.txt".data,
        FileReadResult.ok ("x".data)))]).chatHistory ∧
    ChatMsg.mk ("ai".data) (introText ("a.txt".data)) ∉
      (runClient [ClientEvent.fileChange (some ("a.txt".data,
          FileReadResult.ok ("x".data))),
        ClientEvent.fileChange (some ("b.txt".data,
          FileReadResult.ok ("x".data)))]).chatHistory := by
  decide

/-- Claim C6 (amended): within one uploaded file's session the history is
append-only in request order — a send-message update either changes nothing
or appends the user message immediately followed by the corresponding reply,
and typing changes nothing — while a file-upload update resets the history to
empty or to a single fresh intro message. -/
theorem chat_history_order (st : ClientState) (r : SendResult)
    (f : Option (List Char × FileReadResult)) (s : List Char) :
    ((handleSendMessage r st).chatHistory = st.chatHistory ∨
      ∃ q a, (handleSendMessage r st).chatHistory =
        st.chatHistory ++ [⟨userRole, q⟩, ⟨aiRole, a⟩]) ∧
    ((handleFileChange f st).chatHistory = st.chatHistory ∨
      (handleFileChange f st).chatHistory = [] ∨
      ∃ name, (handleFileChange f st).chatHistory = [⟨aiRole, introText name⟩]) ∧
    (clientStep (ClientEvent.setInput s) st).chatHistory = st.chatHistory :=
  ⟨sendMessage_history r st, fileChange_history f st, rfl⟩


/-! ### Claim C7: the client retry loop -/

theorem backoffGo_three (attempts : Nat → FetchOutcome) (i delay : Nat)
    (waits : List Nat) :
    backoffGo attempts 3 i delay waits =
      match attempts i with
      | FetchOutcome.throws m =>
        if i = 2 then BackoffResult.failure m waits
        else backoffGo attempts 2 (i + 1) (delay * 2) (waits ++ [delay])
      | FetchOutcome.resp status errorDetail =>
        if status = 429 ∧ i < 2 then
          backoffGo attempts 2 (i + 1) (delay * 2) (waits ++ [delay])
        else if okStatus status = false then
          if i = 2 then
            BackoffResult.failure (apiRequestFailedMsg status errorDetail) waits
          else backoffGo attempts 2 (i + 1) (delay * 2) (waits ++ [delay])
        else BackoffResult.success status waits := rfl

theorem backoffGo_two (attempts : Nat → FetchOutcome) (i delay : Nat)
    (waits : List Nat) :
    backoffGo attempts 2 i delay waits =
      match attempts i with
      | FetchOutcome.throws m =>
        if i = 2 then BackoffResult.failure m waits
        else backoffGo attempts 1 (i + 1) (delay * 2) (waits ++ [delay])
      | FetchOutcome.resp status errorDetail =>
        if status = 429 ∧ i < 2 then
          backoffGo attempts 1 (i + 1) (delay * 2) (waits ++ [delay])
        else if okStatus status = false then
          if i = 2 then
            BackoffResult.failure (apiRequestFailedMsg status errorDetail) waits
          else backoffGo attempts 1 (i + 1) (delay * 2) (waits ++ [delay])
        else BackoffResult.success status waits := rfl

theorem backoffGo_one (attempts : Nat → FetchOutcome) (i delay : Nat)
    (waits : List Nat) :
    backoffGo attempts 1 i delay waits =
      match attempts i with
      | FetchOutcome.throws m =>
        if i = 2 then BackoffResult.failure m waits
        else backoffGo attempts 0 (i + 1) (delay * 2) (waits ++ [delay])
      | FetchOutcome.resp status errorDetail =>
        if status = 429 ∧ i < 2 then
          backoffGo attempts 0 (i + 1) (delay * 2) (waits ++ [delay])
        else if okStatus status = false then
          if i = 2 then
            BackoffResult.failure (apiRequestFailedMsg status errorDetail) waits
          else backoffGo attempts 0 (i + 1) (delay * 2) (waits ++ [delay])
        else BackoffResult.success status waits := rfl

/-- The last loop iteration (i = 2) settles on the third attempt's result. -/
theorem backoffGo_last_spec (attempts : Nat → FetchOutcome) :
    backoffGo attempts 1 2 4000 [1000, 2000] =
      attemptResult (attempts 2) [1000, 2000] := by
  rw [backoffGo_one]
  cases h2 : attempts 2 with
  | throws m2 => simp [attemptResult]
  | resp s2 d2 =>
    have h429 : ¬(s2 = 429 ∧ (2 : Nat) < 2) := by
      rintro ⟨_, h⟩
      omega
    by_cases hok2 : okStatus s2 = true
    · simp [attemptResult, hok2, h429]
    · have hok2' : okStatus s2 = false := by simpa using hok2
      simp [attemptResult, hok2', h429]

/-- From the second iteration on, the loop follows the specification tail. -/
theorem backoffGo_tail_spec (attempts : Nat → FetchOutcome) :
    backoffGo attempts 2 1 2000 [1000] =
      if retryTrigger (attempts 1) = false then attemptResult (attempts 1) [1000]
      else attemptResult (attempts 2) [1000, 2000] := by
  rw [backoffGo_two]
  cases h1 : attempts 1 with
  | throws m1 =>
    simp only [retryTrigger]
    norm_num
    exact backoffGo_last_spec attempts
  | resp s1 d1 =>
    by_cases hok1 : okStatus s1 = true
    · have hs1 : s1 ≠ 429 := by
        intro hh
        rw [hh] at hok1
        exact absurd hok1 (by decide)
      simp [retryTrigger, attemptResult, hok1, hs1]
    · have hok1' : okStatus s1 = false := by simpa using hok1
      simp only [retryTrigger, hok1', Bool.not_false]
      norm_num
      by_cases h429 : s1 = 429
      · simpa [h429] using backoffGo_last_spec attempts
      · simpa [h429, hok1'] using backoffGo_last_spec attempts

/-- Claim C7, as stated, is false on the code: a plain 500 response neither
is a 429 nor makes `fetch` throw, yet the loop retries — both back-off
delays are awaited when every attempt answers 500. -/
theorem fetchWithBackoff_counterexample :
    ¬ (∀ attempts : Nat → FetchOutcome,
        (∀ m, attempts 0 ≠ FetchOutcome.throws m) →
        (∀ d, attempts 0 ≠ FetchOutcome.resp 429 d) →
        waitsOf (fetchWithBackoff attempts) = []) := by
  intro h
  have h1 := h attemptsAll500
    (fun m hm => by simp [attemptsAll500] at hm)
    (fun d hd => by simp [attemptsAll500] at hd)
  have h2 : waitsOf (fetchWithBackoff attemptsAll500) = [1000, 2000] := rfl
  rw [h1] at h2
  simp at h2

/-- Claim C7 (amended): `fetchWithBackoff` attempts the request at most 3
times; it retries when the attempt throws or when the response status is not
OK — a 429 or any other non-2xx status — waiting 1000 ms and then 2000 ms;
the first attempt with an OK response is returned with no further waiting,
and when the final attempt also fails its error propagates to the caller.
All of this is the refinement `fetchWithBackoff = backoffSpec`. -/
theorem fetchWithBackoff_spec (attempts : Nat → FetchOutcome) :
    fetchWithBackoff attempts = backoffSpec attempts := by
  show backoffGo attempts 3 0 1000 [] = backoffSpec attempts
  rw [backoffGo_three]
  unfold backoffSpec
  cases h0 : attempts 0 with
  | throws m0 =>
    simp only [retryTrigger]
    norm_num
    exact backoffGo_tail_spec attempts
  | resp s0 d0 =>
    by_cases hok0 : okStatus s0 = true
    · have hs0 : s0 ≠ 429 := by
        intro hh
        rw [hh] at hok0
        exact absurd hok0 (by decide)
      simp [retryTrigger, attemptResult, hok0, hs0]
    · have hok0' : okStatus s0 = false := by simpa using hok0
      simp only [retryTrigger, hok0', Bool.not_false]
      norm_num
      by_cases h429 : s0 = 429
      · simpa [h429] using backoffGo_tail_spec attempts
      · simpa [h429, hok0'] using backoffGo_tail_spec attempts

end RagDemo
